import Mathlib

/-!
# Verification of the CAAT Agroindu payroll rule engine

A shallow embedding of the detection rules of `caat_agroindu_streamlit.py`
(the rule functions `prueba_empleados_fantasma`, `prueba_pagos_post_baja`,
`prueba_cuentas_duplicadas`, `prueba_cuentas_no_autorizadas`,
`primera_cifra`, `benford_analisis`, `prueba_asistencia`).

Modelling choices, stated once:

* A pandas DataFrame is a `List` of records; each rule keeps the source's
  row order semantics (filters preserve order, `sort_values` is modelled by
  `List.mergeSort` on the same key; the claims only speak about membership
  and sortedness, never about how ties are broken, which matches pandas'
  default unstable quicksort).
* A timestamp (after `pd.to_datetime(..., errors="coerce")`) is
  `Option Date`, `none` playing the role of `NaT`.  A `Date` is abstracted
  to a pair (calendar-month index, day within the month) ordered
  lexicographically; `fecha.dt.to_period("M")` is the `month` projection.
  Pandas comparisons involving `NaT` are `False`, and `sort_values` puts
  `NaT` last, which is the `WithTop` order used for sort keys below.
* Python floats (`monto`) are modelled as exact rationals `ℚ`; the real
  valued parts of the Benford analysis (`math.log10`, chi-square) live
  in `ℝ`.
* Strings (`cedula`, `cuenta_bancaria`, ...) are `String` after the
  upstream `str_clean` normalisation (`astype(str).str.strip()`), so the
  columns the rules receive contain no NaN: `dropna()` on them is a no-op.
-/

/-- A calendar timestamp at day granularity, abstracted to its calendar
month index and the day inside that month, ordered lexicographically
(this is exactly the order of the underlying timestamps, and
`to_period("M")` is the `month` field). -/
structure Date where
  month : Int
  day : Int
deriving DecidableEq

def Date.key (d : Date) : Lex (Int × Int) := toLex (d.month, d.day)

theorem Date.key_injective : Function.Injective Date.key := by
  intro a b h
  cases a; cases b
  have := toLex.injective h
  simpa [Prod.ext_iff] using this

instance : LinearOrder Date := LinearOrder.lift' Date.key Date.key_injective

/-- A row of the employee master (`empleados`) after column mapping and
normalisation (lines 190-194 of the source). -/
structure EmpRow where
  cedula : String
  nombre : String
  fecha_ingreso : Option Date
  fecha_egreso : Option Date
deriving DecidableEq

/-- A row of the payroll table (`nomina`) after column mapping and
normalisation (lines 196-201 of the source). -/
structure NomRow where
  fecha_pago : Option Date
  cedula : String
  nombre : String
  monto : Rat
  cuenta_bancaria : String
deriving DecidableEq

/-- `NaT`-last embedding of an optional date, as used by
`sort_values` (pandas sorts missing dates last). -/
def naLast (x : Option Date) : WithTop Date :=
  match x with
  | none => ⊤
  | some d => (d : WithTop Date)

/-- Comparison by a key into a linear order, as a `Bool` relation for
`List.mergeSort`. -/
def keyLe {α β : Type*} [LinearOrder β] (k : α → β) (a b : α) : Bool :=
  decide (k a ≤ k b)

theorem keyLe_trans {α β : Type*} [LinearOrder β] (k : α → β) :
    ∀ a b c : α, keyLe k a b = true → keyLe k b c = true → keyLe k a c = true := by
  intro a b c hab hbc
  simp only [keyLe, decide_eq_true_iff] at *
  exact le_trans hab hbc

theorem keyLe_total {α β : Type*} [LinearOrder β] (k : α → β) :
    ∀ a b : α, (keyLe k a b || keyLe k b a) = true := by
  intro a b
  rcases le_total (k a) (k b) with h | h <;> simp [keyLe, h]

theorem pairwise_mergeSort_keyLe {α β : Type*} [LinearOrder β] (k : α → β) (l : List α) :
    List.Pairwise (fun a b => keyLe k a b = true) (l.mergeSort (keyLe k)) :=
  List.sorted_mergeSort (keyLe_trans k) (keyLe_total k) l

/-- The `["fecha_pago", "cedula"]` sort key used by the findings tables. -/
def nomKey (r : NomRow) : Lex (WithTop Date × String) :=
  toLex (naLast r.fecha_pago, r.cedula)

/-- Fixed reason string of the ghost-by-absence rule. -/
def motivoFantasma : String := "No existe en maestro de empleados"

/-- Sort key of the ghost-by-absence findings: `(fecha_pago, cedula)` of
the payroll part of the finding. -/
def fantKey (p : NomRow × String) : Lex (WithTop Date × String) := nomKey p.1

/-- `prueba_empleados_fantasma` (source lines 235-239): payroll rows whose
`cedula` is not in the set of employee `cedula`s, with the fixed reason
column appended, sorted by `(fecha_pago, cedula)`.  (The source's
`.dropna().astype(str)` on the employee column and `.astype(str)` on the
payroll column are identities here, both columns being strings already.) -/
def prueba_empleados_fantasma (nomina : List NomRow) (empleados : List EmpRow) :
    List (NomRow × String) :=
  let set_emp := empleados.map (fun e => e.cedula)
  let out := (nomina.filter (fun r => decide (r.cedula ∉ set_emp))).map
    (fun r => (r, motivoFantasma))
  out.mergeSort (keyLe fantKey)

/-- C1: the ghost-by-absence rule returns exactly the payroll rows whose
cedula is absent from the employee cedula set, each with the fixed reason
string, and none whose cedula is present; the result is sorted by
`(fecha_pago, cedula)`. -/
theorem fantasma_caracterizacion (nomina : List NomRow) (empleados : List EmpRow) :
    (∀ p : NomRow × String,
      p ∈ prueba_empleados_fantasma nomina empleados ↔
        p.1 ∈ nomina ∧ p.1.cedula ∉ empleados.map (fun e => e.cedula) ∧
          p.2 = motivoFantasma) ∧
    List.Pairwise (fun a b => keyLe fantKey a b = true)
      (prueba_empleados_fantasma nomina empleados) := by
  constructor
  · intro p
    unfold prueba_empleados_fantasma
    rw [List.mem_mergeSort, List.mem_map]
    constructor
    · rintro ⟨r, hr, rfl⟩
      rw [List.mem_filter] at hr
      exact ⟨hr.1, by simpa using hr.2, rfl⟩
    · rintro ⟨h1, h2, h3⟩
      refine ⟨p.1, ?_, ?_⟩
      · rw [List.mem_filter]
        exact ⟨h1, by simpa using h2⟩
      · cases p
        simp only at h3
        simp [h3]
  · exact pairwise_mergeSort_keyLe fantKey _

/-- Fixed reason string of the post-termination rule. -/
def motivoPostBaja : String := "Pago posterior a fecha de egreso"

/-- A row of the post-termination findings table: the payroll row, the
`nombre_emp` and `fecha_egreso` columns brought in by the left merge
(`none` = NaN for an unmatched payroll row), and the reason column. -/
structure PostBajaRow where
  nom : NomRow
  nombre_emp : Option String
  fecha_egreso : Option Date
  motivo : String
deriving DecidableEq

/-- The left merge `nomina.merge(empleados[["cedula","nombre","fecha_egreso"]],
on="cedula", how="left")` of source lines 242-247: every payroll row is
paired with each employee row of equal `cedula`, or with NaN employee
columns when no employee matches. -/
def mergeEmpleados (nomina : List NomRow) (empleados : List EmpRow) :
    List (NomRow × Option String × Option Date) :=
  nomina.flatMap (fun r =>
    let ms := empleados.filter (fun e => decide (e.cedula = r.cedula))
    if ms.isEmpty then [(r, none, none)]
    else ms.map (fun e => (r, some e.nombre, e.fecha_egreso)))

/-- The row filter of source line 248:
`(~merged["fecha_egreso"].isna()) & (merged["fecha_pago"] > merged["fecha_egreso"])`.
A pandas comparison involving `NaT` is `False`. -/
def condPostBaja (fecha_pago fecha_egreso : Option Date) : Bool :=
  match fecha_pago, fecha_egreso with
  | some fp, some fe => decide (fe < fp)
  | _, _ => false

/-- Sort key of the post-termination findings: `(fecha_pago, cedula)`. -/
def postBajaKey (p : PostBajaRow) : Lex (WithTop Date × String) := nomKey p.nom

/-- `prueba_pagos_post_baja` (source lines 241-250): left-merge payroll with
the employee master on `cedula`, keep the rows with a non-null
`fecha_egreso` strictly before `fecha_pago`, append the fixed reason,
sort by `(fecha_pago, cedula)`. -/
def prueba_pagos_post_baja (nomina : List NomRow) (empleados : List EmpRow) :
    List PostBajaRow :=
  let merged := mergeEmpleados nomina empleados
  let out := (merged.filter (fun t => condPostBaja t.1.fecha_pago t.2.2)).map
    (fun t => PostBajaRow.mk t.1 t.2.1 t.2.2 motivoPostBaja)
  out.mergeSort (keyLe postBajaKey)

theorem mem_mergeEmpleados {nomina : List NomRow} {empleados : List EmpRow}
    {t : NomRow × Option String × Option Date} :
    t ∈ mergeEmpleados nomina empleados ↔
      ∃ r ∈ nomina,
        (empleados.filter (fun e => decide (e.cedula = r.cedula)) = [] ∧
          t = (r, none, none)) ∨
        (∃ e ∈ empleados, e.cedula = r.cedula ∧ t = (r, some e.nombre, e.fecha_egreso)) := by
  unfold mergeEmpleados
  rw [List.mem_flatMap]
  constructor
  · rintro ⟨r, hr, ht⟩
    refine ⟨r, hr, ?_⟩
    by_cases hms : empleados.filter (fun e => decide (e.cedula = r.cedula)) = []
    · left
      rw [← List.isEmpty_iff] at hms
      simp only [hms, if_true] at ht
      rw [List.isEmpty_iff] at hms
      simp only [List.mem_singleton] at ht
      exact ⟨hms, ht⟩
    · right
      have hms' : (empleados.filter (fun e => decide (e.cedula = r.cedula))).isEmpty = false := by
        cases h : (empleados.filter (fun e => decide (e.cedula = r.cedula))).isEmpty
        · rfl
        · exact absurd (List.isEmpty_iff.mp h) hms
      simp only [hms', Bool.false_eq_true, if_false, List.mem_map] at ht
      obtain ⟨e, he, rfl⟩ := ht
      rw [List.mem_filter] at he
      exact ⟨e, he.1, by simpa using he.2, rfl⟩
  · rintro ⟨r, hr, h | h⟩
    · obtain ⟨hms, rfl⟩ := h
      refine ⟨r, hr, ?_⟩
      rw [← List.isEmpty_iff] at hms
      simp [hms]
    · obtain ⟨e, he, hc, rfl⟩ := h
      refine ⟨r, hr, ?_⟩
      have hmem : e ∈ empleados.filter (fun e => decide (e.cedula = r.cedula)) := by
        rw [List.mem_filter]
        exact ⟨he, by simpa using hc⟩
      have hms : (empleados.filter (fun e => decide (e.cedula = r.cedula))).isEmpty = false := by
        cases h : (empleados.filter (fun e => decide (e.cedula = r.cedula))).isEmpty
        · rfl
        · rw [List.isEmpty_iff] at h
          rw [h] at hmem
          cases hmem
      simp only [hms, Bool.false_eq_true, if_false, List.mem_map]
      exact ⟨e, hmem, rfl⟩

/-- C2: the post-termination rule flags exactly the payroll rows whose
cedula matches an employee with a non-null `fecha_egreso` strictly before
the row's `fecha_pago`; rows with `fecha_egreso ≥ fecha_pago`, without a
termination date, or with no matching employee are excluded. -/
theorem post_baja_caracterizacion (nomina : List NomRow) (empleados : List EmpRow)
    (r : NomRow) :
    (∃ x ∈ prueba_pagos_post_baja nomina empleados, x.nom = r) ↔
      r ∈ nomina ∧ ∃ e ∈ empleados, e.cedula = r.cedula ∧
        ∃ fe, e.fecha_egreso = some fe ∧
          ∃ fp, r.fecha_pago = some fp ∧ fe < fp := by
  unfold prueba_pagos_post_baja
  constructor
  · rintro ⟨x, hx, rfl⟩
    rw [List.mem_mergeSort, List.mem_map] at hx
    obtain ⟨t, ht, rfl⟩ := hx
    rw [List.mem_filter] at ht
    obtain ⟨hmem, hcond⟩ := ht
    rw [mem_mergeEmpleados] at hmem
    obtain ⟨r', hr', hcase⟩ := hmem
    rcases hcase with ⟨-, rfl⟩ | ⟨e, he, hc, rfl⟩
    · simp [condPostBaja] at hcond
    · simp only at hcond ⊢
      refine ⟨hr', e, he, hc, ?_⟩
      rcases hfe : e.fecha_egreso with _ | fe <;>
        rcases hfp : r'.fecha_pago with _ | fp <;>
          rw [hfe, hfp] at hcond <;> simp [condPostBaja] at hcond
      exact ⟨fe, rfl, fp, rfl, hcond⟩
  · rintro ⟨hr, e, he, hc, fe, hfe, fp, hfp, hlt⟩
    refine ⟨PostBajaRow.mk r (some e.nombre) e.fecha_egreso motivoPostBaja, ?_, rfl⟩
    rw [List.mem_mergeSort, List.mem_map]
    refine ⟨(r, some e.nombre, e.fecha_egreso), ?_, rfl⟩
    rw [List.mem_filter]
    constructor
    · rw [mem_mergeEmpleados]
      exact ⟨r, hr, Or.inr ⟨e, he, hc, rfl⟩⟩
    · simp only [hfe, hfp, condPostBaja]
      simpa using hlt

/-- C9: a payroll row is never flagged by both the ghost-by-absence rule
and the post-termination rule: the payroll rows underlying the two
findings tables are disjoint. -/
theorem fantasma_post_baja_disjuntas (nomina : List NomRow) (empleados : List EmpRow) :
    List.Disjoint
      ((prueba_empleados_fantasma nomina empleados).map (fun p => p.1))
      ((prueba_pagos_post_baja nomina empleados).map (fun x => x.nom)) := by
  intro r h1 h2
  rw [List.mem_map] at h1 h2
  obtain ⟨p, hp, rfl⟩ := h1
  have hchar := (fantasma_caracterizacion nomina empleados).1 p
  rw [hchar] at hp
  obtain ⟨x, hx, hxr⟩ := h2
  have : ∃ x ∈ prueba_pagos_post_baja nomina empleados, x.nom = p.1 := ⟨x, hx, hxr⟩
  rw [post_baja_caracterizacion] at this
  obtain ⟨-, e, he, hc, -⟩ := this
  exact hp.2.1 (List.mem_map.mpr ⟨e, he, hc⟩)

/-- Fixed reason string of the unauthorized-account rule. -/
def motivoNoAutorizada : String := "Cuenta bancaria no autorizada"

/-- `prueba_cuentas_no_autorizadas` (source lines 270-276): a no-op when the
authorized-accounts table is empty, otherwise the payroll rows whose
`cuenta_bancaria` is not in the authorized set, with the fixed reason,
sorted by `(fecha_pago, cedula)`.  The authorized table is its single
(already `str_clean`-normalised) column, so a `List String`. -/
def prueba_cuentas_no_autorizadas (nomina : List NomRow) (cuentas_aut : List String) :
    List (NomRow × String) :=
  if cuentas_aut.isEmpty then []
  else
    let out := (nomina.filter (fun r => decide (r.cuenta_bancaria ∉ cuentas_aut))).map
      (fun r => (r, motivoNoAutorizada))
    out.mergeSort (keyLe fantKey)

/-- C3: with an empty/absent authorized-accounts table the unauthorized
account rule returns no findings; with a non-empty table it flags exactly
the payroll rows whose account is not in the authorized set, each with the
fixed reason string. -/
theorem cuentas_no_autorizadas_caracterizacion (nomina : List NomRow)
    (cuentas_aut : List String) :
    (cuentas_aut = [] → prueba_cuentas_no_autorizadas nomina cuentas_aut = []) ∧
    (cuentas_aut ≠ [] → ∀ p : NomRow × String,
      p ∈ prueba_cuentas_no_autorizadas nomina cuentas_aut ↔
        p.1 ∈ nomina ∧ p.1.cuenta_bancaria ∉ cuentas_aut ∧ p.2 = motivoNoAutorizada) := by
  constructor
  · intro h
    simp [prueba_cuentas_no_autorizadas, h]
  · intro h p
    have hne : cuentas_aut.isEmpty = false := by
      cases he : cuentas_aut.isEmpty
      · rfl
      · exact absurd (List.isEmpty_iff.mp he) h
    unfold prueba_cuentas_no_autorizadas
    simp only [hne, Bool.false_eq_true, if_false]
    rw [List.mem_mergeSort, List.mem_map]
    constructor
    · rintro ⟨r, hr, rfl⟩
      rw [List.mem_filter] at hr
      exact ⟨hr.1, by simpa using hr.2, rfl⟩
    · rintro ⟨h1, h2, h3⟩
      refine ⟨p.1, ?_, ?_⟩
      · rw [List.mem_filter]
        exact ⟨h1, by simpa using h2⟩
      · cases p
        simp only at h3
        simp [h3]

/-- Closed instance of C3: the rule applied to a one-row payroll table and
an empty authorized table is a no-op. -/
theorem cuentas_no_autorizadas_witness :
    prueba_cuentas_no_autorizadas
      [NomRow.mk (some (Date.mk 1 5)) "001" "A" 100 "CTA1"] [] = [] :=
  (cuentas_no_autorizadas_caracterizacion
    [NomRow.mk (some (Date.mk 1 5)) "001" "A" 100 "CTA1"] []).1 rfl

/-- Distinct count of `cedula`s paid into account `c`
(`groupby("cuenta_bancaria")["cedula"].nunique()` at account `c`). -/
def nuniqueCedulas (rows : List NomRow) (c : String) : Nat :=
  (((rows.filter (fun r => decide (r.cuenta_bancaria = c))).map
    (fun r => r.cedula)).dedup).length

/-- Total amount paid into account `c` (`agg(total_pagado=("monto", "sum"))`). -/
def totalPagado (rows : List NomRow) (c : String) : Rat :=
  ((rows.filter (fun r => decide (r.cuenta_bancaria = c))).map (fun r => r.monto)).sum

/-- Distinct count of accounts paid to `cedula` `c`
(`groupby("cedula")["cuenta_bancaria"].nunique()` at cedula `c`). -/
def nuniqueCuentas (rows : List NomRow) (c : String) : Nat :=
  (((rows.filter (fun r => decide (r.cedula = c))).map
    (fun r => r.cuenta_bancaria)).dedup).length

/-- A row of the shared-account summary table (`resumen`). -/
structure ResumenRow where
  cuenta_bancaria : String
  num_cedulas : Nat
  total_pagado : Rat
deriving DecidableEq

/-- A row of the account-hopping table (`hop`). -/
structure HopRow where
  cedula : String
  num_cuentas : Nat
deriving DecidableEq

/-- Descending `["num_cedulas", "total_pagado"]` sort key of the summary. -/
def resumenKey (x : ResumenRow) : (Lex (Nat × Rat))ᵒᵈ :=
  OrderDual.toDual (toLex (x.num_cedulas, x.total_pagado))

/-- Descending `num_cuentas` sort key of the hop table. -/
def hopKey (x : HopRow) : Natᵒᵈ := OrderDual.toDual x.num_cuentas

/-- The accounts receiving payments from more than one distinct cedula
(`g[g["num_cedulas"] > 1]["cuenta_bancaria"]`, group keys sorted the way
pandas `groupby` sorts them). -/
def cuentasCompartidas (nomina : List NomRow) : List String :=
  let cuentas := ((nomina.map (fun r => r.cuenta_bancaria)).dedup).mergeSort
    (keyLe (fun s : String => s))
  cuentas.filter (fun c => decide (1 < nuniqueCedulas nomina c))

/-- The detail table: payroll rows paid into a shared account
(`nomina[nomina["cuenta_bancaria"].isin(cuentas_multi)]`). -/
def detalleCompartidas (nomina : List NomRow) : List NomRow :=
  nomina.filter (fun r => decide (r.cuenta_bancaria ∈ cuentasCompartidas nomina))

/-- The summary table: one row per account of the detail table with its
distinct-cedula count and summed amount, sorted descending by
`(num_cedulas, total_pagado)` (source lines 257-262). -/
def resumenCompartidas (nomina : List NomRow) : List ResumenRow :=
  let detalle := detalleCompartidas nomina
  let claves := ((detalle.map (fun r => r.cuenta_bancaria)).dedup).mergeSort
    (keyLe (fun s : String => s))
  (claves.map (fun c => ResumenRow.mk c (nuniqueCedulas detalle c)
    (totalPagado detalle c))).mergeSort (keyLe resumenKey)

/-- The account-hopping table: cedulas with more than one distinct account,
sorted descending by `num_cuentas` (source lines 264-267). -/
def hopCuentas (nomina : List NomRow) : List HopRow :=
  let cedulas := ((nomina.map (fun r => r.cedula)).dedup).mergeSort
    (keyLe (fun s : String => s))
  ((cedulas.map (fun c => HopRow.mk c (nuniqueCuentas nomina c))).filter
    (fun x => decide (1 < x.num_cuentas))).mergeSort (keyLe hopKey)

/-- `prueba_cuentas_duplicadas` (source lines 252-268): the summary of
shared accounts, the detail rows in shared accounts, and the
account-hopping table. -/
def prueba_cuentas_duplicadas (nomina : List NomRow) :
    List ResumenRow × List NomRow × List HopRow :=
  (resumenCompartidas nomina, detalleCompartidas nomina, hopCuentas nomina)

theorem mem_cuentasCompartidas {nomina : List NomRow} {c : String} :
    c ∈ cuentasCompartidas nomina ↔ 1 < nuniqueCedulas nomina c := by
  unfold cuentasCompartidas
  rw [List.mem_filter, List.mem_mergeSort, List.mem_dedup, List.mem_map]
  constructor
  · rintro ⟨-, h⟩
    simpa using h
  · intro h
    refine ⟨?_, by simpa using h⟩
    have hne : nomina.filter (fun r => decide (r.cuenta_bancaria = c)) ≠ [] := by
      intro h0
      rw [nuniqueCedulas, h0] at h
      simp at h
    obtain ⟨r, hr⟩ := List.exists_mem_of_ne_nil _ hne
    rw [List.mem_filter] at hr
    exact ⟨r, hr.1, by simpa using hr.2⟩

theorem detalleCompartidas_eq (nomina : List NomRow) :
    detalleCompartidas nomina =
      nomina.filter (fun r => decide (1 < nuniqueCedulas nomina r.cuenta_bancaria)) := by
  unfold detalleCompartidas
  apply List.filter_congr
  intro r hr
  simp only [decide_eq_decide]
  exact mem_cuentasCompartidas

theorem filter_detalleCompartidas {nomina : List NomRow} {c : String}
    (h : 1 < nuniqueCedulas nomina c) :
    (detalleCompartidas nomina).filter (fun r => decide (r.cuenta_bancaria = c)) =
      nomina.filter (fun r => decide (r.cuenta_bancaria = c)) := by
  rw [detalleCompartidas_eq, List.filter_filter]
  apply List.filter_congr
  intro r hr
  by_cases hc : r.cuenta_bancaria = c
  · simp [hc, h]
  · simp [hc]

theorem nuniqueCedulas_detalle {nomina : List NomRow} {c : String}
    (h : 1 < nuniqueCedulas nomina c) :
    nuniqueCedulas (detalleCompartidas nomina) c = nuniqueCedulas nomina c := by
  unfold nuniqueCedulas
  rw [filter_detalleCompartidas h]

theorem totalPagado_detalle {nomina : List NomRow} {c : String}
    (h : 1 < nuniqueCedulas nomina c) :
    totalPagado (detalleCompartidas nomina) c = totalPagado nomina c := by
  unfold totalPagado
  rw [filter_detalleCompartidas h]

theorem mem_resumenCompartidas {nomina : List NomRow} {x : ResumenRow} :
    x ∈ resumenCompartidas nomina ↔
      1 < nuniqueCedulas nomina x.cuenta_bancaria ∧
        x = ResumenRow.mk x.cuenta_bancaria (nuniqueCedulas nomina x.cuenta_bancaria)
          (totalPagado nomina x.cuenta_bancaria) := by
  unfold resumenCompartidas
  rw [List.mem_mergeSort, List.mem_map]
  constructor
  · rintro ⟨c, hc, rfl⟩
    rw [List.mem_mergeSort, List.mem_dedup, List.mem_map] at hc
    obtain ⟨r, hr, rfl⟩ := hc
    rw [detalleCompartidas_eq, List.mem_filter] at hr
    have hs : 1 < nuniqueCedulas nomina r.cuenta_bancaria := by simpa using hr.2
    simp only [hs, true_and]
    rw [nuniqueCedulas_detalle hs, totalPagado_detalle hs]
  · rintro ⟨hs, hx⟩
    refine ⟨x.cuenta_bancaria, ?_, ?_⟩
    · rw [List.mem_mergeSort, List.mem_dedup, List.mem_map]
      have hne : nomina.filter (fun r => decide (r.cuenta_bancaria = x.cuenta_bancaria)) ≠ [] := by
        intro h0
        rw [nuniqueCedulas, h0] at hs
        simp at hs
      obtain ⟨r, hr⟩ := List.exists_mem_of_ne_nil _ hne
      rw [List.mem_filter] at hr
      have hrc : r.cuenta_bancaria = x.cuenta_bancaria := by simpa using hr.2
      refine ⟨r, ?_, hrc⟩
      rw [detalleCompartidas_eq, List.mem_filter]
      exact ⟨hr.1, by simpa [hrc] using hs⟩
    · rw [nuniqueCedulas_detalle hs, totalPagado_detalle hs]
      exact hx.symm

theorem resumenCompartidas_nodup (nomina : List NomRow) :
    ((resumenCompartidas nomina).map (fun x => x.cuenta_bancaria)).Nodup := by
  unfold resumenCompartidas
  have hperm := List.mergeSort_perm
    (((((detalleCompartidas nomina).map (fun r => r.cuenta_bancaria)).dedup).mergeSort
      (keyLe (fun s : String => s))).map (fun c => ResumenRow.mk c
        (nuniqueCedulas (detalleCompartidas nomina) c)
        (totalPagado (detalleCompartidas nomina) c))) (keyLe resumenKey)
  have hmap := hperm.map (fun x => x.cuenta_bancaria)
  rw [hmap.nodup_iff]
  rw [List.map_map]
  have : ((fun x : ResumenRow => x.cuenta_bancaria) ∘ (fun c => ResumenRow.mk c
      (nuniqueCedulas (detalleCompartidas nomina) c)
      (totalPagado (detalleCompartidas nomina) c))) = fun c => c := rfl
  rw [this, List.map_id']
  have hperm2 := List.mergeSort_perm
    ((((detalleCompartidas nomina).map (fun r => r.cuenta_bancaria)).dedup))
    (keyLe (fun s : String => s))
  rw [hperm2.nodup_iff]
  exact List.nodup_dedup _

/-- C5: the shared-account summary has exactly one row per account paid from
more than one distinct cedula, carrying that account's distinct-cedula
count and total amount, sorted descending by `(num_cedulas,
total_pagado)`; the detail table is exactly the payroll rows whose account
is shared; single-cedula accounts appear in neither. -/
theorem cuentas_duplicadas_caracterizacion (nomina : List NomRow) :
    (∀ x : ResumenRow, x ∈ (prueba_cuentas_duplicadas nomina).1 ↔
        1 < nuniqueCedulas nomina x.cuenta_bancaria ∧
        x.num_cedulas = nuniqueCedulas nomina x.cuenta_bancaria ∧
        x.total_pagado = totalPagado nomina x.cuenta_bancaria) ∧
    ((prueba_cuentas_duplicadas nomina).1.map (fun x => x.cuenta_bancaria)).Nodup ∧
    (∀ c, 1 < nuniqueCedulas nomina c →
      ∃ x ∈ (prueba_cuentas_duplicadas nomina).1, x.cuenta_bancaria = c) ∧
    (prueba_cuentas_duplicadas nomina).2.1 =
      nomina.filter (fun r => decide (1 < nuniqueCedulas nomina r.cuenta_bancaria)) ∧
    List.Pairwise (fun a b =>
        toLex (b.num_cedulas, b.total_pagado) ≤ toLex (a.num_cedulas, a.total_pagado))
      (prueba_cuentas_duplicadas nomina).1 := by
  refine ⟨?_, resumenCompartidas_nodup nomina, ?_, detalleCompartidas_eq nomina, ?_⟩
  · intro x
    rw [show (prueba_cuentas_duplicadas nomina).1 = resumenCompartidas nomina from rfl,
      mem_resumenCompartidas]
    constructor
    · rintro ⟨hs, hx⟩
      refine ⟨hs, ?_, ?_⟩
      · conv_lhs => rw [hx]
      · conv_lhs => rw [hx]
    · rintro ⟨hs, h1, h2⟩
      refine ⟨hs, ?_⟩
      cases x
      simp only at h1 h2 ⊢
      rw [h1, h2]
  · intro c hc
    refine ⟨ResumenRow.mk c (nuniqueCedulas nomina c) (totalPagado nomina c), ?_, rfl⟩
    rw [show (prueba_cuentas_duplicadas nomina).1 = resumenCompartidas nomina from rfl,
      mem_resumenCompartidas]
    exact ⟨hc, rfl⟩
  · have := pairwise_mergeSort_keyLe resumenKey
      ((((((detalleCompartidas nomina).map (fun r => r.cuenta_bancaria)).dedup).mergeSort
        (keyLe (fun s : String => s))).map (fun c => ResumenRow.mk c
          (nuniqueCedulas (detalleCompartidas nomina) c)
          (totalPagado (detalleCompartidas nomina) c))))
    refine List.Pairwise.imp ?_ this
    intro a b h
    rw [keyLe, decide_eq_true_iff] at h
    exact h

/-- A row of the attendance table (`asistencia`) after column mapping and
normalisation (lines 203-205 of the source): one mark per
(employee, day), the date possibly `NaT` after coercion. -/
structure AsisMark where
  cedula : String
  fecha : Option Date
deriving DecidableEq

/-- A row of the attendance-insufficiency findings table, the column subset
selected on source line 336. -/
structure AsisRow where
  fecha_pago : Option Date
  cedula : String
  nombre : String
  monto : Rat
  cuenta_bancaria : String
  dias_asistidos : Nat
  motivo : String
deriving DecidableEq

/-- Attendance marks with a non-`NaT` date, as `(cedula, fecha)` pairs:
the rows that survive the `groupby(["cedula", "anio_mes"])` (pandas drops
groups with a NaN key) and whose date is counted by `nunique` (which
drops NaN values). -/
def marcasValidas (asistencia : List AsisMark) : List (String × Date) :=
  asistencia.filterMap (fun a => a.fecha.map (fun f => (a.cedula, f)))

/-- The `dias` table of source lines 327-331: distinct attendance dates per
`(cedula, anio_mes)` group.  (Group-key order does not matter below: the
table is only used for lookups and its keys are deduplicated.) -/
def diasTabla (asistencia : List AsisMark) : List ((String × Int) × Nat) :=
  let valid := marcasValidas asistencia
  let claves := (valid.map (fun p => (p.1, p.2.month))).dedup
  claves.map (fun k =>
    (k, (((valid.filter (fun p => decide (p.1 = k.1 ∧ p.2.month = k.2))).map
      (fun p => p.2)).dedup).length))

/-- The merged `dias_asistidos` column of source lines 332-333: left-join of
the payroll row against `diasTabla` on `(cedula, anio_mes)` with
`fillna(0)`; a `NaT` payment date never matches a group key. -/
def buscaDias (asistencia : List AsisMark) (r : NomRow) : Nat :=
  match r.fecha_pago with
  | none => 0
  | some fp =>
    (((diasTabla asistencia).find?
      (fun kv => decide (kv.1 = (r.cedula, fp.month)))).map (fun kv => kv.2)).getD 0

/-- Specification-level distinct-day count: the number of distinct non-`NaT`
attendance dates of `r.cedula` inside the calendar month of `r.fecha_pago`
(`0` when the payment date is `NaT`). -/
def diasAsistidos (asistencia : List AsisMark) (r : NomRow) : Nat :=
  match r.fecha_pago with
  | none => 0
  | some fp =>
    (((marcasValidas asistencia).filter
      (fun p => decide (p.1 = r.cedula ∧ p.2.month = fp.month))).map
        (fun p => p.2)).dedup.length

/-- Sort key `["fecha_pago", "cedula"]` of the attendance findings. -/
def asisKey (x : AsisRow) : Lex (WithTop Date × String) :=
  toLex (naLast x.fecha_pago, x.cedula)

/-- Reason string of the attendance rule (an f-string of `min_dias`). -/
def motivoAsistencia (min_dias : Nat) : String :=
  "Asistencia insuficiente (<" ++ toString min_dias ++ " día(s) en el mes)"

/-- `prueba_asistencia` (source lines 319-337): empty when the attendance
table is empty; otherwise flag the payroll rows whose merged distinct-day
count is strictly below `min_dias`, project the report columns, sort by
`(fecha_pago, cedula)`. -/
def prueba_asistencia (nomina : List NomRow) (asistencia : List AsisMark)
    (min_dias : Nat) : List AsisRow :=
  if asistencia.isEmpty then []
  else
    let merged := nomina.map (fun r => (r, buscaDias asistencia r))
    ((merged.filter (fun t => decide (t.2 < min_dias))).map (fun t =>
      AsisRow.mk t.1.fecha_pago t.1.cedula t.1.nombre t.1.monto t.1.cuenta_bancaria
        t.2 (motivoAsistencia min_dias))).mergeSort (keyLe asisKey)

theorem buscaDias_eq_diasAsistidos (asistencia : List AsisMark) (r : NomRow) :
    buscaDias asistencia r = diasAsistidos asistencia r := by
  unfold buscaDias diasAsistidos
  cases hfp : r.fecha_pago with
  | none => rfl
  | some fp =>
    by_cases hk : (r.cedula, fp.month) ∈
        ((marcasValidas asistencia).map (fun p => (p.1, p.2.month))).dedup
    · have hsome : (((diasTabla asistencia).find?
          (fun kv => decide (kv.1 = (r.cedula, fp.month))))).isSome := by
        rw [List.find?_isSome]
        refine ⟨((r.cedula, fp.month),
          ((((marcasValidas asistencia).filter (fun p =>
            decide (p.1 = r.cedula ∧ p.2.month = fp.month))).map
              (fun p => p.2)).dedup).length), ?_, by simp⟩
        unfold diasTabla
        rw [List.mem_map]
        exact ⟨(r.cedula, fp.month), hk, by simp⟩
      obtain ⟨kv, heq⟩ := Option.isSome_iff_exists.mp hsome
      have hkv1 : kv.1 = (r.cedula, fp.month) := by
        have := List.find?_some heq
        simpa using this
      have hkvmem := List.mem_of_find?_eq_some heq
      unfold diasTabla at hkvmem
      rw [List.mem_map] at hkvmem
      obtain ⟨k, hkmem, hkv⟩ := hkvmem
      have hkk : k = (r.cedula, fp.month) := by
        rw [← hkv] at hkv1
        simpa using hkv1
      subst hkk
      simp [heq, ← hkv]
    · have hnone : ((diasTabla asistencia).find?
          (fun kv => decide (kv.1 = (r.cedula, fp.month)))) = none := by
        rw [List.find?_eq_none]
        intro kv hkv
        unfold diasTabla at hkv
        rw [List.mem_map] at hkv
        obtain ⟨k, hkmem, rfl⟩ := hkv
        simp only [decide_eq_true_iff]
        intro hkeq
        rw [hkeq] at hkmem
        exact hk hkmem
      have hfil : (marcasValidas asistencia).filter
          (fun p => decide (p.1 = r.cedula ∧ p.2.month = fp.month)) = [] := by
        rw [List.filter_eq_nil_iff]
        intro p hp
        simp only [decide_eq_true_iff]
        rintro ⟨h1, h2⟩
        apply hk
        rw [List.mem_dedup, List.mem_map]
        exact ⟨p, hp, by rw [h1, h2]⟩
      simp only [hnone, Option.map_none, Option.getD_none]
      rw [hfil]
      rfl

/-- C4: with a non-empty attendance table and `min_dias > 0`, the
attendance rule counts distinct attendance dates per
`(cedula, month-of-payment)` pair, treats a missing count as 0 days, and
flags exactly the payroll rows whose count is strictly below `min_dias`. -/
theorem asistencia_caracterizacion (nomina : List NomRow) (asistencia : List AsisMark)
    (min_dias : Nat) (h1 : asistencia ≠ []) (_h2 : 0 < min_dias) (x : AsisRow) :
    x ∈ prueba_asistencia nomina asistencia min_dias ↔
      ∃ r ∈ nomina, diasAsistidos asistencia r < min_dias ∧
        x = AsisRow.mk r.fecha_pago r.cedula r.nombre r.monto r.cuenta_bancaria
          (diasAsistidos asistencia r) (motivoAsistencia min_dias) := by
  have hne : asistencia.isEmpty = false := by
    cases he : asistencia.isEmpty
    · rfl
    · exact absurd (List.isEmpty_iff.mp he) h1
  unfold prueba_asistencia
  simp only [hne, Bool.false_eq_true, if_false]
  rw [List.mem_mergeSort, List.mem_map]
  constructor
  · rintro ⟨t, ht, rfl⟩
    rw [List.mem_filter] at ht
    obtain ⟨hmem, hlt⟩ := ht
    rw [List.mem_map] at hmem
    obtain ⟨r, hr, rfl⟩ := hmem
    rw [decide_eq_true_iff, buscaDias_eq_diasAsistidos] at hlt
    exact ⟨r, hr, hlt, by rw [buscaDias_eq_diasAsistidos]⟩
  · rintro ⟨r, hr, hlt, rfl⟩
    refine ⟨(r, buscaDias asistencia r), ?_, ?_⟩
    · rw [List.mem_filter]
      refine ⟨List.mem_map.mpr ⟨r, hr, rfl⟩, ?_⟩
      rw [decide_eq_true_iff, buscaDias_eq_diasAsistidos]
      exact hlt
    · rw [buscaDias_eq_diasAsistidos]

/-- Closed instance of C4 on a one-row payroll and a one-mark attendance
table with `min_dias = 2`. -/
theorem asistencia_caracterizacion_witness :
    ([AsisMark.mk "001" (some (Date.mk 1 3))] ≠ ([] : List AsisMark)) ∧ 0 < 2 ∧
    (AsisRow.mk (some (Date.mk 1 15)) "001" "A" 100 "C1" 1 (motivoAsistencia 2) ∈
        prueba_asistencia [NomRow.mk (some (Date.mk 1 15)) "001" "A" 100 "C1"]
          [AsisMark.mk "001" (some (Date.mk 1 3))] 2 ↔
      ∃ r ∈ [NomRow.mk (some (Date.mk 1 15)) "001" "A" 100 "C1"],
        diasAsistidos [AsisMark.mk "001" (some (Date.mk 1 3))] r < 2 ∧
          AsisRow.mk (some (Date.mk 1 15)) "001" "A" 100 "C1" 1 (motivoAsistencia 2) =
            AsisRow.mk r.fecha_pago r.cedula r.nombre r.monto r.cuenta_bancaria
              (diasAsistidos [AsisMark.mk "001" (some (Date.mk 1 3))] r)
              (motivoAsistencia 2)) :=
  ⟨by decide, by decide,
    asistencia_caracterizacion
      [NomRow.mk (some (Date.mk 1 15)) "001" "A" 100 "C1"]
      [AsisMark.mk "001" (some (Date.mk 1 3))] 2 (by decide) (by decide) _⟩

/-- C10: with `min_dias = 0` (a value the UI slider allows) the attendance
rule never flags anything, because every stored distinct-day count is a
natural number and the rule keeps only counts strictly below `min_dias`. -/
theorem asistencia_min_dias_cero (nomina : List NomRow) (asistencia : List AsisMark)
    (h : asistencia ≠ []) :
    prueba_asistencia nomina asistencia 0 = [] := by
  have hne : asistencia.isEmpty = false := by
    cases he : asistencia.isEmpty
    · rfl
    · exact absurd (List.isEmpty_iff.mp he) h
  unfold prueba_asistencia
  simp only [hne, Bool.false_eq_true, if_false]
  have hfil : (nomina.map (fun r => (r, buscaDias asistencia r))).filter
      (fun t => decide (t.2 < 0)) = [] := by
    rw [List.filter_eq_nil_iff]
    intro t ht
    simp
  rw [hfil]
  simp

/-- Closed instance of C10. -/
theorem asistencia_min_dias_cero_witness :
    prueba_asistencia [NomRow.mk (some (Date.mk 1 15)) "001" "A" 100 "C1"]
      [AsisMark.mk "001" (some (Date.mk 1 3))] 0 = [] :=
  asistencia_min_dias_cero _ _ (by decide)

theorem floor_div_ten_lt {x : Rat} (h : 1 ≤ x) : ⌊x / 10⌋ < ⌊x⌋ := by
  have hfx : 1 ≤ ⌊x⌋ := Int.le_floor.mpr (by exact_mod_cast h)
  rcases le_or_lt ⌊x / 10⌋ 0 with h0 | h0
  · omega
  · have h2 : ((⌊x / 10⌋ : Int) : Rat) ≤ x / 10 := Int.floor_le _
    have h3 : ((10 * ⌊x / 10⌋ : Int) : Rat) ≤ x := by push_cast; linarith
    have h4 : 10 * ⌊x / 10⌋ ≤ ⌊x⌋ := Int.le_floor.mpr h3
    omega

theorem floor_toNat_div_ten_lt {x : Rat} (h : 1 ≤ x) : (⌊x / 10⌋).toNat < ⌊x⌋.toNat := by
  have hfx : 1 ≤ ⌊x⌋ := Int.le_floor.mpr (by exact_mod_cast h)
  have := floor_div_ten_lt h
  omega

/-- The `while n >= 10: n /= 10.0` loop of `primera_cifra` (source lines
280-281), modelled over exact rationals; the loop terminates because the
floor of the value strictly decreases. -/
def reduceBig (n : Rat) : Rat :=
  if h : 10 ≤ n then reduceBig (n / 10) else n
termination_by (⌊n⌋).toNat
decreasing_by
  exact floor_toNat_div_ten_lt (le_trans (by norm_num) h)

/-- The `while 0 < n < 1: n *= 10.0` loop of `primera_cifra` (source lines
282-283); it terminates because the floor of the reciprocal strictly
decreases. -/
def raiseSmall (n : Rat) : Rat :=
  if h : 0 < n ∧ n < 1 then raiseSmall (n * 10) else n
termination_by (⌊1 / n⌋).toNat
decreasing_by
  have h1 : 1 ≤ 1 / n := by
    rw [le_div_iff₀ h.1]
    linarith [h.2]
  rw [← div_div]
  exact floor_toNat_div_ten_lt h1

/-- `primera_cifra` (source lines 278-284): leading significant digit of
`|x|`, or `0` when the scaled value still truncates below 1 (Python's
`int` truncates toward zero, which on the non-negative scaled value is the
floor). -/
def primera_cifra (x : Rat) : Int :=
  if 1 ≤ raiseSmall (reduceBig |x|) then ⌊raiseSmall (reduceBig |x|)⌋ else 0

theorem reduceBig_step {n : Rat} (h : 10 ≤ n) : reduceBig n = reduceBig (n / 10) := by
  rw [reduceBig]
  simp [h]

theorem reduceBig_base {n : Rat} (h : n < 10) : reduceBig n = n := by
  rw [reduceBig]
  simp [not_le.mpr h]

theorem reduceBig_lt_ten (n : Rat) : reduceBig n < 10 := by
  induction n using reduceBig.induct with
  | case1 n h ih => rw [reduceBig_step h]; exact ih
  | case2 n h => rw [reduceBig_base (not_le.mp h)]; exact not_le.mp h

theorem reduceBig_pos (n : Rat) : 0 < n → 0 < reduceBig n := by
  induction n using reduceBig.induct with
  | case1 n h ih =>
    intro hn
    rw [reduceBig_step h]
    exact ih (by positivity)
  | case2 n h =>
    intro hn
    rw [reduceBig_base (not_le.mp h)]
    exact hn

theorem raiseSmall_step {n : Rat} (h : 0 < n ∧ n < 1) :
    raiseSmall n = raiseSmall (n * 10) := by
  rw [raiseSmall]
  simp [h.1, h.2]

theorem raiseSmall_base {n : Rat} (h : 1 ≤ n) : raiseSmall n = n := by
  rw [raiseSmall]
  simp [not_lt.mpr h]

theorem raiseSmall_ge_one (n : Rat) : 0 < n → 1 ≤ raiseSmall n := by
  induction n using raiseSmall.induct with
  | case1 n h ih =>
    intro _
    rw [raiseSmall_step h]
    exact ih (by positivity)
  | case2 n h =>
    intro hn
    have h1 : 1 ≤ n := not_lt.mp (fun hlt => h ⟨hn, hlt⟩)
    rw [raiseSmall_base h1]
    exact h1

theorem raiseSmall_lt_ten (n : Rat) : 0 < n → n < 10 → raiseSmall n < 10 := by
  induction n using raiseSmall.induct with
  | case1 n h ih =>
    intro _ _
    rw [raiseSmall_step h]
    exact ih (by positivity) (by linarith [h.2])
  | case2 n h =>
    intro hn h10
    have h1 : 1 ≤ n := not_lt.mp (fun hlt => h ⟨hn, hlt⟩)
    rw [raiseSmall_base h1]
    exact h10

theorem primera_cifra_mem (x : Rat) (hx : 0 < x) :
    1 ≤ primera_cifra x ∧ primera_cifra x ≤ 9 := by
  unfold primera_cifra
  have h1 : 0 < reduceBig |x| := reduceBig_pos _ (abs_pos.mpr (ne_of_gt hx))
  have h2 : reduceBig |x| < 10 := reduceBig_lt_ten _
  have h3 : 1 ≤ raiseSmall (reduceBig |x|) := raiseSmall_ge_one _ h1
  have h4 : raiseSmall (reduceBig |x|) < 10 := raiseSmall_lt_ten _ h1 h2
  rw [if_pos h3]
  constructor
  · exact Int.le_floor.mpr (by exact_mod_cast h3)
  · have h5 : ⌊raiseSmall (reduceBig |x|)⌋ < 10 := Int.floor_lt.mpr (by exact_mod_cast h4)
    omega

/-- The eligible amounts of `benford_analisis` (source lines 288-289):
coerce (`none` = a non-numeric value) with `fillna(0.0)`, keep the
strictly positive ones. -/
def montosElegibles (montos : List (Option Rat)) : List Rat :=
  (montos.map (fun x => x.getD 0)).filter (fun x => decide (0 < x))

/-- The observed tally `obs[d]` of source lines 292-296: the number of
eligible amounts whose leading digit is `d` (amounts whose digit falls
outside 1..9 are not tallied, the `if d in obs` guard). -/
def observados (montos : List (Option Rat)) (d : Nat) : Nat :=
  (montosElegibles montos).countP (fun x => decide (primera_cifra x = (d : Int)))

/-- `total = sum(obs.values())` of source line 297. -/
def sumaObservados (montos : List (Option Rat)) : Nat :=
  ((List.range 9).map (fun i => observados montos (i + 1))).sum

/-- A row of the Benford digit table (source lines 308-315). -/
structure BenfordRow where
  digito : Nat
  observado : Nat
  esperado : Real
  pct_observado : Real
  pct_benford : Real
  desv_pct : Real

/-- Python's `round(x, 2)` on the exact value (the concrete values the
claims touch are not ties, so the rounding mode is immaterial). -/
noncomputable def round2 (x : Real) : Real := ((round (x * 100) : Int) : Real) / 100

/-- The Benford proportion `exp_p[d] = log10(1 + 1/d)` of source line 299. -/
noncomputable def exp_p (d : Nat) : Real := Real.logb 10 (1 + 1 / (d : Real))

/-- The expected count `exp[d] = exp_p[d] * total` of source line 300. -/
noncomputable def esperadoBenford (montos : List (Option Rat)) (d : Nat) : Real :=
  exp_p d * (sumaObservados montos : Real)

/-- The chi-square statistic of source line 301 (terms with non-positive
expected count are skipped). -/
noncomputable def chi2Benford (montos : List (Option Rat)) : Real :=
  ((List.range 9).map (fun i =>
    if 0 < esperadoBenford montos (i + 1) then
      ((observados montos (i + 1) : Real) - esperadoBenford montos (i + 1)) ^ 2 /
        esperadoBenford montos (i + 1)
    else 0)).sum

/-- The unrounded observed percentage `obs_pct` of source line 306. -/
noncomputable def pctObservado (montos : List (Option Rat)) (d : Nat) : Real :=
  if sumaObservados montos ≠ 0 then
    100 * (observados montos d : Real) / (sumaObservados montos : Real)
  else 0

/-- One row of the digit table (source lines 308-315); `desv_pct` uses the
unrounded percentages. -/
noncomputable def filaBenford (montos : List (Option Rat)) (d : Nat) : BenfordRow :=
  BenfordRow.mk d (observados montos d) (round2 (esperadoBenford montos d))
    (round2 (pctObservado montos d)) (round2 (100 * exp_p d))
    (round2 (pctObservado montos d - 100 * exp_p d))

/-- `benford_analisis` (source lines 286-317): the digit table, the
chi-square statistic and the Benford proportions, or `(empty, 0, empty)`
when no amount is eligible. -/
noncomputable def benford_analisis (montos : List (Option Rat)) :
    List BenfordRow × Real × List (Nat × Real) :=
  if montosElegibles montos = [] then ([], 0, [])
  else
    ((List.range 9).map (fun i => filaBenford montos (i + 1)),
      chi2Benford montos,
      (List.range 9).map (fun i => (i + 1, exp_p (i + 1))))

theorem suma_map_add (L : List Nat) (f g : Nat → Nat) :
    (L.map (fun i => f i + g i)).sum = (L.map f).sum + (L.map g).sum := by
  induction L with
  | nil => simp
  | cons b t ih => simp [ih]; omega

theorem suma_indicador (k : Int) (h1 : 1 ≤ k) (h9 : k ≤ 9) :
    ((List.range 9).map (fun i => if k = ((i + 1 : Nat) : Int) then 1 else 0)).sum = 1 := by
  interval_cases k <;> decide

theorem suma_countP_digitos (l : List Rat) (h : ∀ x ∈ l, 0 < x) :
    ((List.range 9).map (fun i =>
      l.countP (fun x => decide (primera_cifra x = ((i + 1 : Nat) : Int))))).sum
      = l.length := by
  induction l with
  | nil => simp
  | cons a t ih =>
    obtain ⟨h1, h9⟩ := primera_cifra_mem a (h a (List.mem_cons_self a t))
    simp only [List.countP_cons]
    rw [suma_map_add (List.range 9)
      (fun i => t.countP (fun x => decide (primera_cifra x = ((i + 1 : Nat) : Int))))
      (fun i => if (decide (primera_cifra a = ((i + 1 : Nat) : Int))) = true then 1 else 0)]
    rw [ih (fun x hx => h x (List.mem_cons_of_mem a hx))]
    have hind : ((List.range 9).map (fun i =>
        if (decide (primera_cifra a = ((i + 1 : Nat) : Int))) = true then 1 else 0)).sum = 1 := by
      have := suma_indicador (primera_cifra a) h1 h9
      simpa using this
    rw [hind]
    simp

theorem elegibles_pos (montos : List (Option Rat)) :
    ∀ x ∈ montosElegibles montos, 0 < x := by
  intro x hx
  unfold montosElegibles at hx
  rw [List.mem_filter] at hx
  simpa using hx.2

/-- C8: on every strictly positive amount the leading-digit extraction (a
total function: both source loops terminate) returns a digit in 1..9, so
every eligible amount is tallied under exactly one digit and the tally
total equals the number of eligible amounts; only a value whose scaled
magnitude truncates below 1 could fall outside the tally, and a positive
amount never does. -/
theorem primera_cifra_rango (x : Rat) (hx : 0 < x) :
    (1 ≤ primera_cifra x ∧ primera_cifra x ≤ 9) ∧
    ∀ montos : List (Option Rat),
      sumaObservados montos = (montosElegibles montos).length := by
  refine ⟨primera_cifra_mem x hx, ?_⟩
  intro montos
  unfold sumaObservados observados
  exact suma_countP_digitos _ (elegibles_pos montos)

/-- Closed instance of C8 at the amount `25/2`. -/
theorem primera_cifra_rango_witness :
    (0 : Rat) < 25 / 2 ∧
    ((1 ≤ primera_cifra (25 / 2) ∧ primera_cifra (25 / 2) ≤ 9) ∧
      ∀ montos : List (Option Rat),
        sumaObservados montos = (montosElegibles montos).length) :=
  ⟨by norm_num, primera_cifra_rango (25 / 2) (by norm_num)⟩

/-- C6: when no amount survives the numeric coercion and positivity filter,
the Benford analysis returns the empty digit table and a chi-square of 0. -/
theorem benford_degenerado (montos : List (Option Rat))
    (h : montosElegibles montos = []) :
    benford_analisis montos = ([], 0, []) := by
  simp [benford_analisis, h]

/-- Closed instance of C6: a non-numeric value, a zero and a negative
amount leave no eligible amount, and the analysis is degenerate. -/
theorem benford_degenerado_witness :
    montosElegibles [some (-5 : Rat), none, some 0] = [] ∧
    benford_analisis [some (-5 : Rat), none, some 0] = ([], 0, []) :=
  ⟨by decide, benford_degenerado _ (by decide)⟩

theorem primera_cifra_cien_mult (d : Rat) (h1 : 1 ≤ d) (h2 : d < 10) :
    primera_cifra (100 * d) = ⌊d⌋ := by
  unfold primera_cifra
  have h0 : (0 : Rat) < 100 * d := by linarith
  rw [abs_of_pos h0]
  rw [reduceBig_step (by linarith)]
  rw [show (100 * d) / 10 = 10 * d by ring]
  rw [reduceBig_step (by linarith)]
  rw [show (10 * d) / 10 = d by ring]
  rw [reduceBig_base h2, raiseSmall_base h1, if_pos h1]

theorem pc_100 : primera_cifra 100 = 1 := by
  have h := primera_cifra_cien_mult 1 (by norm_num) (by norm_num)
  norm_num at h
  exact h

theorem pc_200 : primera_cifra 200 = 2 := by
  have h := primera_cifra_cien_mult 2 (by norm_num) (by norm_num)
  norm_num at h
  exact h

theorem pc_300 : primera_cifra 300 = 3 := by
  have h := primera_cifra_cien_mult 3 (by norm_num) (by norm_num)
  norm_num at h
  exact h

theorem pc_400 : primera_cifra 400 = 4 := by
  have h := primera_cifra_cien_mult 4 (by norm_num) (by norm_num)
  norm_num at h
  exact h

theorem pc_500 : primera_cifra 500 = 5 := by
  have h := primera_cifra_cien_mult 5 (by norm_num) (by norm_num)
  norm_num at h
  exact h

theorem pc_600 : primera_cifra 600 = 6 := by
  have h := primera_cifra_cien_mult 6 (by norm_num) (by norm_num)
  norm_num at h
  exact h

theorem pc_700 : primera_cifra 700 = 7 := by
  have h := primera_cifra_cien_mult 7 (by norm_num) (by norm_num)
  norm_num at h
  exact h

theorem pc_800 : primera_cifra 800 = 8 := by
  have h := primera_cifra_cien_mult 8 (by norm_num) (by norm_num)
  norm_num at h
  exact h

theorem pc_900 : primera_cifra 900 = 9 := by
  have h := primera_cifra_cien_mult 9 (by norm_num) (by norm_num)
  norm_num at h
  exact h

/-- The C7 input: one amount per leading digit 1..9. -/
def montosUniformes : List (Option Rat) :=
  [some 100, some 200, some 300, some 400, some 500, some 600, some 700,
    some 800, some 900]

theorem sumaObservados_eq_length (montos : List (Option Rat)) :
    sumaObservados montos = (montosElegibles montos).length := by
  unfold sumaObservados observados
  exact suma_countP_digitos _ (elegibles_pos montos)

theorem elegibles_uniformes :
    montosElegibles montosUniformes =
      [(100 : Rat), 200, 300, 400, 500, 600, 700, 800, 900] := by decide

theorem observados_uniforme (d : Nat) (h1 : 1 ≤ d) (h9 : d ≤ 9) :
    observados montosUniformes d = 1 := by
  interval_cases d <;>
    rw [observados, elegibles_uniformes] <;>
      norm_num [List.countP_cons, List.countP_nil, pc_100, pc_200, pc_300,
        pc_400, pc_500, pc_600, pc_700, pc_800, pc_900]

theorem suma_uniformes : sumaObservados montosUniformes = 9 := by
  rw [sumaObservados_eq_length, elegibles_uniformes]
  rfl

theorem round2_cien_novenos : round2 (100 / 9 : Real) = 11.11 := by
  unfold round2
  rw [show ((100 : Real) / 9) * 100 = ((10000 / 9 : Rat) : Real) by push_cast; ring]
  rw [Rat.round_cast]
  rw [round_eq]
  rw [show (10000 : Rat) / 9 + 1 / 2 = 20009 / 18 by norm_num]
  rw [show ⌊(20009 : Rat) / 18⌋ = 1111 by
    rw [Int.floor_eq_iff]
    constructor <;> norm_num]
  norm_num

theorem lista_sum_pos {l : List Real} (hnn : ∀ y ∈ l, 0 ≤ y) {x : Real}
    (hx : x ∈ l) (hxp : 0 < x) : 0 < l.sum := by
  induction l with
  | nil => cases hx
  | cons a t ih =>
    rw [List.sum_cons]
    rcases List.mem_cons.mp hx with rfl | hmem
    · have ht : 0 ≤ t.sum :=
        List.sum_nonneg (fun y hy => hnn y (List.mem_cons_of_mem _ hy))
      linarith
    · have ha := hnn _ (List.mem_cons_self _ t)
      have := ih (fun y hy => hnn y (List.mem_cons_of_mem _ hy)) hmem
      linarith

theorem esperado_uniforme_pos (d : Nat) (hd : 0 < d) :
    0 < esperadoBenford montosUniformes d := by
  rw [esperadoBenford, suma_uniformes]
  have hlog : 0 < exp_p d := by
    rw [exp_p]
    apply Real.logb_pos (by norm_num)
    have h1 : (1 : Real) ≤ (d : Real) := by exact_mod_cast hd
    have h2 : (0 : Real) < 1 / (d : Real) := by positivity
    linarith
  have h9 : (0 : Real) < ((9 : Nat) : Real) := by norm_num
  exact mul_pos hlog h9

theorem esperado_uniforme_uno : 1 < esperadoBenford montosUniformes 1 := by
  rw [esperadoBenford, suma_uniformes, exp_p]
  rw [show (1 : Real) + 1 / ((1 : Nat) : Real) = 2 by norm_num]
  have hp := Real.logb_pow 10 2 9
  have hlt : Real.logb 10 10 < Real.logb 10 (2 ^ (9 : Nat)) :=
    Real.logb_lt_logb (by norm_num) (by norm_num) (by norm_num)
  rw [Real.logb_self_eq_one (by norm_num)] at hlt
  rw [hp] at hlt
  push_cast at hlt ⊢
  linarith

/-- C7: on the input `[100, 200, ..., 900]` (one amount per leading digit)
every digit row of the Benford table shows an observed percentage of
11.11, and the chi-square statistic is strictly positive (the uniform
observed distribution deviates from the non-uniform Benford
expectation). -/
theorem benford_uniforme_digitos :
    (∀ row ∈ (benford_analisis montosUniformes).1, row.pct_observado = 11.11) ∧
    0 < (benford_analisis montosUniformes).2.1 := by
  have hne : montosElegibles montosUniformes ≠ [] := by
    rw [elegibles_uniformes]
    simp
  constructor
  · intro row hrow
    rw [benford_analisis, if_neg hne] at hrow
    simp only [List.mem_map, List.mem_range] at hrow
    obtain ⟨i, hi, rfl⟩ := hrow
    show round2 (pctObservado montosUniformes (i + 1)) = 11.11
    have hpct : pctObservado montosUniformes (i + 1) = 100 / 9 := by
      rw [pctObservado, suma_uniformes,
        observados_uniforme (i + 1) (by omega) (by omega)]
      norm_num
    rw [hpct, round2_cien_novenos]
  · rw [benford_analisis, if_neg hne]
    show 0 < chi2Benford montosUniformes
    rw [chi2Benford]
    refine lista_sum_pos ?_ (List.mem_map.mpr ⟨0, by decide, rfl⟩) ?_
    · intro y hy
      simp only [List.mem_map] at hy
      obtain ⟨i, -, rfl⟩ := hy
      split
      · positivity
      · exact le_refl 0
    · show 0 < if 0 < esperadoBenford montosUniformes (0 + 1) then
        ((observados montosUniformes (0 + 1) : Real) -
          esperadoBenford montosUniformes (0 + 1)) ^ 2 /
            esperadoBenford montosUniformes (0 + 1) else 0
      have hpos := esperado_uniforme_pos 1 (by norm_num)
      have h1 := esperado_uniforme_uno
      rw [show (0 + 1 : Nat) = 1 from rfl]
      rw [if_pos hpos]
      apply div_pos _ hpos
      rw [observados_uniforme 1 (by norm_num) (by norm_num)]
      have hne0 : ((1 : Nat) : Real) - esperadoBenford montosUniformes 1 ≠ 0 := by
        push_cast
        linarith
      exact lt_of_le_of_ne (sq_nonneg _) (Ne.symm (pow_ne_zero 2 hne0))
